import Mathlib

/-!
Verification of the funding-tracker core: a shallow embedding in Lean 4 of the
repository's money codec (`money.ts`), shift calendar (`ukTime.ts`), OCR token
filter and multi-pass word merger (`ocr.ts`), header/column locator and row
reconstructor (`parseNeeded.ts`), and target calculator
(`funding/index.ts`, `handleUpdateFundingCommand`).

JavaScript numbers are modelled as `Rat` where fractional values can occur
(confidences, bounding-box coordinates, major-currency amounts) and as `Int`
where the code only ever holds integers (pence, day counts).  JS `Math.round`
(round half toward positive infinity) is `jsRound`, `Math.ceil` on a quotient
is `Int.ceil` of the exact rational quotient.  `Date.UTC` / `getUTC*` are
modelled by `daysFromCivil` / `civilFromDays` over the proleptic Gregorian
calendar, with the round-trip proved below.  JS `Map` (insertion-ordered,
set-in-place) is an association list, JS stable `Array.prototype.sort` is
the insertion sort `stableSort`.
-/

/-- JS `Math.round`: round half toward positive infinity. -/
def jsRound (x : Rat) : Int := Int.floor (x + 1 / 2)

/-! ## Calendar model (for `ukTime.ts`)

`addDaysIso` and `daysBetweenIsoInclusive` in the source convert ISO dates to
epoch milliseconds with `Date.UTC` and back with `getUTCFullYear`/`Month`/`Date`.
We model those library primitives by `daysFromCivil` (civil date to days since
1970-01-01) and `civilFromDays` (its inverse), both proleptic Gregorian. -/

structure CivilDate where
  year : Int
  month : Int
  day : Int
deriving DecidableEq

def isLeapYear (y : Int) : Bool := y % 4 = 0 && (y % 100 ≠ 0 || y % 400 = 0)

def daysInMonth (y m : Int) : Int :=
  if m = 2 then (if isLeapYear y then 29 else 28)
  else if m = 4 ∨ m = 6 ∨ m = 9 ∨ m = 11 then 30
  else 31

/-- A well-formed civil date (what `Date.UTC` round-trips exactly). -/
def ValidDate (c : CivilDate) : Prop :=
  1 ≤ c.month ∧ c.month ≤ 12 ∧ 1 ≤ c.day ∧ c.day ≤ daysInMonth c.year c.month

instance (c : CivilDate) : Decidable (ValidDate c) := by
  unfold ValidDate; infer_instance

/-- Days from the start of a March-based year era to the start of March-based
year `r` (relative, valid for any integer `r`). -/
def yearStart (r : Int) : Int := 365 * r + r / 4 - r / 100 + r / 400

/-- Days since 1970-01-01 of a proleptic Gregorian civil date. -/
def daysFromCivil (c : CivilDate) : Int :=
  let y' := if c.month ≤ 2 then c.year - 1 else c.year
  let mp := if c.month ≤ 2 then c.month + 9 else c.month - 3
  yearStart y' + (153 * mp + 2) / 5 + c.day - 1 - 719468

/-- Recover the year-of-era from a day-of-era: first guess `doe / 365`, then
correct downward when the guess's year starts after `doe`. -/
def cfdYoe (doe : Int) : Int :=
  let g := doe / 365
  if doe < yearStart g then g - 1 else g

/-- Civil date of a count of days since 1970-01-01 (inverse of `daysFromCivil`). -/
def civilFromDays (z : Int) : CivilDate :=
  let z' := z + 719468
  let era := z' / 146097
  let doe := z' - 146097 * era
  let yoe := cfdYoe doe
  let doy := doe - yearStart yoe
  let mp := (5 * doy + 2) / 153
  let d := doy - (153 * mp + 2) / 5 + 1
  let m := if mp < 10 then mp + 3 else mp - 9
  let y := yoe + era * 400
  ⟨if m ≤ 2 then y + 1 else y, m, d⟩

/-- `addDaysIso` (ukTime.ts:45): ISO date plus a day delta via epoch arithmetic. -/
def addDaysIso (c : CivilDate) (deltaDays : Int) : CivilDate :=
  civilFromDays (daysFromCivil c + deltaDays)

/-- `daysBetweenIsoInclusive` (ukTime.ts:84): whole-day difference plus one. -/
def daysBetweenIsoInclusive (startD endD : CivilDate) : Int :=
  daysFromCivil endD - daysFromCivil startD + 1

/-- Specification-side calendar predecessor: decrement the day, rolling back
over month and year boundaries using the month lengths.  Used to state what
"the previous calendar date" means independently of the epoch arithmetic. -/
def prevCalendarDate (c : CivilDate) : CivilDate :=
  if 1 < c.day then ⟨c.year, c.month, c.day - 1⟩
  else if 1 < c.month then ⟨c.year, c.month - 1, daysInMonth c.year (c.month - 1)⟩
  else ⟨c.year - 1, 12, 31⟩

/-! ## Shift calendar (`ukTime.ts`)

`getUkNow` is timezone-database formatting (`Intl.DateTimeFormat`); the model
starts from its output: a civil wall-clock reading in the fixed zone. -/

inductive ShiftName
  | Morning
  | Day
  | Night
deriving DecidableEq

structure UkNow where
  date : CivilDate
  hour : Int
  minute : Int
  second : Int
deriving DecidableEq

structure ShiftInfo where
  ukNow : UkNow
  shiftDayIsoDate : CivilDate
  currentShift : ShiftName
  remainingShiftsToday : List ShiftName
deriving DecidableEq

/-- `getUkShiftInfo` (ukTime.ts:62), taking the civil wall-clock reading as
input. -/
def getUkShiftInfo (now : UkNow) : ShiftInfo :=
  let mins := now.hour * 60 + now.minute
  let shiftDayIsoDate := if mins < 3 * 60 then addDaysIso now.date (-1) else now.date
  let minsInShiftDay := if mins < 3 * 60 then mins + 24 * 60 else mins
  let currentShift : ShiftName :=
    if 3 * 60 ≤ minsInShiftDay ∧ minsInShiftDay < 11 * 60 then .Morning
    else if 11 * 60 ≤ minsInShiftDay ∧ minsInShiftDay < 19 * 60 then .Day
    else .Night
  let remainingShiftsToday : List ShiftName :=
    if currentShift = .Morning then [.Morning, .Day, .Night]
    else if currentShift = .Day then [.Day, .Night]
    else [.Night]
  ⟨now, shiftDayIsoDate, currentShift, remainingShiftsToday⟩

/-! ## Money codec (`money.ts`) -/

/-- JS `String.prototype.trim`. -/
def jsTrim (s : String) : String :=
  String.mk (((s.toList.dropWhile Char.isWhitespace).reverse.dropWhile Char.isWhitespace).reverse)

/-- JS `String.prototype.toLowerCase` (ASCII range suffices for this code). -/
def jsToLower (s : String) : String := String.mk (s.toList.map Char.toLower)

/-- `poundsToPence` (money.ts:1): major units to minor units, rounded to the
nearest penny. -/
def poundsToPence (amount : Rat) : Int := jsRound (amount * 100)

/-- One character step of the cleaning chain in `parseMoneyToPence`
(money.ts:12-19): drop currency symbols, thousands separators and whitespace,
then normalize the OCR digit confusions O/o->0, I/l/1->1, S/5->5, Z/2->2.
The sequential `replace` calls commute into one pass because no substitution
produces a character a later rule touches. -/
def cleanMoneyChar (c : Char) : Option Char :=
  if c = '£' ∨ c = '$' ∨ c = ',' ∨ c.isWhitespace then none
  else if c = 'O' ∨ c = 'o' then some '0'
  else if c = 'I' ∨ c = 'l' ∨ c = '1' then some '1'
  else if c = 'S' ∨ c = '5' then some '5'
  else if c = 'Z' ∨ c = '2' then some '2'
  else some c

def isAsciiDigit (c : Char) : Bool := '0' ≤ c && c ≤ '9'

/-- Decimal value of a digit string. -/
def digitsVal (l : List Char) : Int :=
  l.foldl (fun acc c => 10 * acc + ((c.toNat : Int) - ('0'.toNat : Int))) 0

/-- Match of the anchored pattern `^(\d+)(?:\.(\d{1,3}))?$` on the cleaned
characters, returning (whole part, fractional part). -/
def matchMoneyPattern (l : List Char) : Option (List Char × List Char) :=
  let whole := l.takeWhile isAsciiDigit
  let rest := l.drop whole.length
  if whole.isEmpty then none
  else
    match rest with
    | [] => some (whole, [])
    | '.' :: fr =>
      if !fr.isEmpty && fr.length ≤ 3 && fr.all isAsciiDigit then some (whole, fr)
      else none
    | _ => none

/-- `parseMoneyToPence` (money.ts:6): trim, clean, match `digits[.digits]`,
pad/truncate the fraction to two digits; `none` (never an exception) on any
non-match. -/
def parseMoneyToPence (input : String) : Option Int :=
  let s := jsTrim input
  if s.isEmpty then none
  else
    let cleaned := s.toList.filterMap cleanMoneyChar
    match matchMoneyPattern cleaned with
    | none => none
    | some (whole, frac) =>
      -- `.padEnd(2, '0').slice(0, 2)`
      let frac2 := (frac ++ ['0', '0']).take 2
      let pence : Int := digitsVal whole * 100 + digitsVal frac2
      if pence < 0 then none else some pence

/-! ## OCR recognition adapter (`ocr.ts`)

The external engine invocation itself is out of scope; the model covers the
pure parts: the per-pass token filter in `recognizeImageWithPSM` and the
multi-pass word merge in `recognizeImage`. -/

structure BBox where
  x0 : Rat
  y0 : Rat
  x1 : Rat
  y1 : Rat
deriving DecidableEq

structure OcrWord where
  text : String
  confidence : Rat
  bbox : BBox
deriving DecidableEq

/-- `/[\d$£]/` test of the filter. -/
def textHasMoneyChar (s : String) : Bool :=
  s.toList.any (fun c => isAsciiDigit c || c = '$' || c = '£')

/-- The per-pass token filter of `recognizeImageWithPSM` (ocr.ts:43-49). -/
def keepOcrWord (w : OcrWord) : Bool :=
  if w.text.length = 0 then false
  else if 25 ≤ w.confidence then true
  else if textHasMoneyChar w.text then true
  else if w.text.length = 1 ∧ w.confidence < 40 then false
  else false

/-- Keys of the merge's `wordMap`: `grid` is the phase-1 key
`round(x0/10)_round(y0/10)_lowercased text`, `gridX` is the phase-2 `posKey`
which additionally carries the raw `x0`. -/
inductive MergeKey
  | grid (rx ry : Int) (text : String)
  | gridX (rx ry : Int) (text : String) (x0 : Rat)
deriving DecidableEq

def wordKey (w : OcrWord) : MergeKey :=
  .grid (jsRound (w.bbox.x0 / 10)) (jsRound (w.bbox.y0 / 10)) (jsToLower w.text)

def wordPosKey (w : OcrWord) : MergeKey :=
  .gridX (jsRound (w.bbox.x0 / 10)) (jsRound (w.bbox.y0 / 10)) (jsToLower w.text) w.bbox.x0

/-- Phase-2 `uniqueWords` set key: lowercased text and `round(y0/5)`. -/
def uniqueKey (w : OcrWord) : String × Int := (jsToLower w.text, jsRound (w.bbox.y0 / 5))

/-- JS `Map` as an insertion-ordered association list. -/
def AssocWords : Type := List (MergeKey × OcrWord)

def mapGet (m : AssocWords) (k : MergeKey) : Option OcrWord :=
  match m with
  | [] => none
  | e :: rest => if e.1 = k then some e.2 else mapGet rest k

/-- JS `Map.set`: replace in place when the key exists, else append. -/
def mapSet (m : AssocWords) (k : MergeKey) (v : OcrWord) : AssocWords :=
  match m with
  | [] => [(k, v)]
  | e :: rest => if e.1 = k then (k, v) :: rest else e :: mapSet rest k v

def mapValues (m : AssocWords) : List OcrWord := (m : List (MergeKey × OcrWord)).map (fun e => e.2)

/-- Phase 1 of `recognizeImage` (ocr.ts:84-94): keep the higher-confidence
token per grid key. -/
def mergePhase1Step (m : AssocWords) (w : OcrWord) : AssocWords :=
  match mapGet m (wordKey w) with
  | none => mapSet m (wordKey w) w
  | some existing => if existing.confidence < w.confidence then mapSet m (wordKey w) w else m

def mergePhase1 (results : List (List OcrWord)) : AssocWords :=
  results.foldl (fun m r => r.foldl mergePhase1Step m) []

/-- Phase 2 of `recognizeImage` (ocr.ts:97-114): add tokens unique to one pass
when no spatially-close textual match was already kept. -/
def mergePhase2Step (st : List (String × Int) × AssocWords) (w : OcrWord) :
    List (String × Int) × AssocWords :=
  if uniqueKey w ∈ st.1 then st
  else
    let seen := st.1 ++ [uniqueKey w]
    match (mapValues st.2).find?
        (fun v => decide (|v.bbox.y0 - w.bbox.y0| < 10) && (jsToLower v.text == jsToLower w.text)) with
    | some _ => (seen, st.2)
    | none => (seen, mapSet st.2 (wordPosKey w) w)

def mergePhase2 (results : List (List OcrWord)) (m0 : AssocWords) : AssocWords :=
  (results.foldl (fun st r => r.foldl mergePhase2Step st) (([], m0) : List (String × Int) × AssocWords)).2

/-- The word merge of `recognizeImage` (ocr.ts:82-116): phase 1 over all
passes, then phase 2 over all passes, then the map's values in insertion
order. -/
def mergeOcrWords (results : List (List OcrWord)) : List OcrWord :=
  mapValues (mergePhase2 results (mergePhase1 results))

/-! ## Stable sort (JS `Array.prototype.sort`)

`le a b` models `comparator(a, b) <= 0`.  Insertion from the left, placing
each element after all existing elements it need not precede, is a stable
sort, matching the ES2019+ stability guarantee. -/

def insertStable (le : α → α → Bool) (x : α) : List α → List α
  | [] => [x]
  | y :: ys => if le y x then y :: insertStable le x ys else x :: y :: ys

def stableSort (le : α → α → Bool) (l : List α) : List α :=
  l.foldl (fun acc x => insertStable le x acc) []

/-! ## Header/column locator and row reconstructor (`parseNeeded.ts`) -/

/-- `centerX` (parseNeeded.ts:11). -/
def centerX (b : BBox) : Rat := (b.x0 + b.x1) / 2

/-- Keep-set of `normalizeToken`'s character class `[^a-z0-9Â£$.,\s]`
(the `Â` is literally part of the class in the source). -/
def normalizeKeep (c : Char) : Bool :=
  ('a' ≤ c && c ≤ 'z') || isAsciiDigit c || c = 'Â' || c = '£' || c = '$' ||
    c = '.' || c = ',' || c.isWhitespace

/-- `normalizeToken` (parseNeeded.ts:6): trim, lowercase, drop characters
outside the keep-set. -/
def normalizeToken (s : String) : String :=
  String.mk (((jsTrim s).toList.map Char.toLower).filter normalizeKeep)

/-- JS `String.prototype.includes` on character lists. -/
def listStartsWith : List Char → List Char → Bool
  | _, [] => true
  | [], _ :: _ => false
  | c :: cs, p :: ps => c == p && listStartsWith cs ps

def containsSeq (hay pat : List Char) : Bool :=
  match hay with
  | [] => listStartsWith [] pat
  | _ :: t => listStartsWith hay pat || containsSeq t pat

def needChars : List Char := ['n', 'e', 'e', 'd']

def neededChars : List Char := ['n', 'e', 'e', 'd', 'e', 'd']

/-- The `0->o, 1->i, 5->s` substitution used for OCR-tolerant header
matching. -/
def ocrVariationChar (c : Char) : Char :=
  if c = '0' then 'o' else if c = '1' then 'i' else if c = '5' then 's' else c

/-- `isLikelyNeededHeader` (parseNeeded.ts:15): fuzzy match of the "Needed"
column header. -/
def isLikelyNeededHeader (w : OcrWord) : Bool :=
  let t := (normalizeToken w.text).toList
  let normalized := t.filter (fun c => !c.isWhitespace)
  if normalized = neededChars ∨ normalized = needChars then true
  else if containsSeq normalized needChars then true
  else if containsSeq (normalized.map ocrVariationChar) needChars then true
  else if 4 ≤ normalized.length ∧ normalized.length ≤ 7 then
    normalized.any (fun c => c = 'n') && normalized.any (fun c => c = 'd' || c = '0')
  else false

def sumY0 (l : List OcrWord) : Rat := l.foldl (fun s w => s + w.bbox.y0) 0

/-- One step of the line-clustering loop; the accumulator holds the lines in
reverse build order so the most recent line is at the head. -/
def clusterStep (yTolerance : Rat) (acc : List (List OcrWord)) (w : OcrWord) :
    List (List OcrWord) :=
  match acc with
  | [] => [[w]]
  | last :: rest =>
    let lastY := sumY0 last / (last.length : Rat)
    if |w.bbox.y0 - lastY| ≤ yTolerance then (last ++ [w]) :: rest
    else [w] :: last :: rest

/-- `clusterByLine` (parseNeeded.ts:43): sort by top edge, group while the
new token is within `yTolerance` of the current line's mean top edge, then
sort each line left to right. -/
def clusterByLine (words : List OcrWord) (yTolerance : Rat) : List (List OcrWord) :=
  let sorted := stableSort (fun a b => decide (a.bbox.y0 ≤ b.bbox.y0)) words
  ((sorted.foldl (clusterStep yTolerance) []).reverse).map
    (fun line => stableSort (fun a b => decide (a.bbox.x0 ≤ b.bbox.x0)) line)

structure NeededRow where
  name : String
  neededPence : Option Int
  confidence : Rat
deriving DecidableEq

/-- JS `Array.prototype.join(' ')`. -/
def joinWithSpace : List String → String
  | [] => String.mk []
  | s :: rest => rest.foldl (fun acc t => acc ++ String.mk [' '] ++ t) s

/-- JS `.replace(/\s+/g, ' ')`. -/
def collapseWsAux : List Char → Bool → List Char
  | [], _ => []
  | c :: t, prev =>
    if c.isWhitespace then
      (if prev then collapseWsAux t true else ' ' :: collapseWsAux t true)
    else c :: collapseWsAux t false

def collapseWs (s : String) : String := String.mk (collapseWsAux s.toList false)

def sumConf (l : List OcrWord) : Rat := l.foldl (fun s w => s + w.confidence) 0

/-- Strategy 2 of the value parse: each value-band token individually, scanned
right to left. -/
def scanMoneyRightToLeft (ws : List OcrWord) : Option Int :=
  ws.reverse.findSome? (fun w => parseMoneyToPence w.text)

/-- The per-line body of `parseRowsFromLines` (parseNeeded.ts:199-281):
name from tokens left of the band, value from parse strategies 1-5, `none`
(row skipped) when the name is empty. -/
def parseRowFromLine (colX0 colX1 : Rat) (line : List OcrWord) : Option NeededRow :=
  let nameWords := ((line.filter (fun w => centerX w.bbox < colX0 - 3)).map
    (fun w => jsTrim w.text)).filter (fun s => !s.isEmpty)
  let name := jsTrim (collapseWs (joinWithSpace nameWords))
  if name.isEmpty then none
  else
    let neededWords := line.filter (fun w => colX0 ≤ centerX w.bbox ∧ centerX w.bbox ≤ colX1)
    let rightWords := line.filter (fun w => colX1 < centerX w.bbox ∧ centerX w.bbox ≤ colX1 + 50)
    let allNeededWords := neededWords ++ rightWords
    let p1 : Option Int :=
      if allNeededWords.length > 0 then
        match parseMoneyToPence (joinWithSpace (allNeededWords.map (fun w => w.text))) with
        | some v => some v
        | none =>
          match scanMoneyRightToLeft allNeededWords with
          | some v => some v
          | none =>
            if allNeededWords.length ≥ 2 then
              match parseMoneyToPence
                  (joinWithSpace ((allNeededWords.drop (allNeededWords.length - 2)).map
                    (fun w => w.text))) with
              | some v => some v
              | none =>
                parseMoneyToPence (joinWithSpace ((allNeededWords.take 2).map (fun w => w.text)))
            else none
      else none
    let neededPence : Option Int :=
      match p1 with
      | some v => some v
      | none => parseMoneyToPence (joinWithSpace (line.map (fun w => w.text)))
    -- When the value band is empty the source averages over `nameWords`, which
    -- are strings whose `confidence` property is undefined (`?? 0`), so the
    -- mean — and hence the row confidence — is 0 in that case.
    let confidence : Rat :=
      if neededWords.length > 0 then
        (jsRound ((sumConf neededWords / (neededWords.length : Rat)) * 10) : Rat) / 10
      else 0
    some ⟨name, neededPence, confidence⟩

def parseRowsFromLines (allLines : List (List OcrWord)) (colX0 colX1 : Rat) : List NeededRow :=
  allLines.filterMap (parseRowFromLine colX0 colX1)

structure NpDebug where
  header : Option (String × BBox)
  columnX0 : Option Rat
  columnX1 : Option Rat
deriving DecidableEq

structure NeededParseResult where
  neededPenceValues : List Int
  rows : List NeededRow
  totalPence : Int
  debug : NpDebug
deriving DecidableEq

/-- `reduce((sum, v) => sum + v, 0)`. -/
def sumPence (l : List Int) : Int := l.foldl (fun s v => s + v) 0

/-- De-dup by `name.toLowerCase()|needed` key (parseNeeded.ts:134-140); the
key is modelled as the pair, which separates exactly the same rows as the
joined string. -/
def dedupeRowsAux : List NeededRow → List (String × Option Int) → List NeededRow
  | [], _ => []
  | r :: rest, seen =>
    let key := (jsToLower r.name, r.neededPence)
    if key ∈ seen then dedupeRowsAux rest seen
    else r :: dedupeRowsAux rest (key :: seen)

/-- Bucket map of the fallback column inference: key `round(cx/40)*40`, value
(member count, member centers in insertion order). -/
def addToBuckets (bs : List (Int × Nat × List Rat)) (k : Int) (cx : Rat) :
    List (Int × Nat × List Rat) :=
  match bs with
  | [] => [(k, 1, [cx])]
  | (k', c, xs) :: rest =>
    if k' = k then (k', c + 1, xs ++ [cx]) :: rest
    else (k', c, xs) :: addToBuckets rest k cx

def buildBuckets (moneyWords : List OcrWord) : List (Int × Nat × List Rat) :=
  moneyWords.foldl
    (fun bs w => addToBuckets bs (jsRound (centerX w.bbox / 40) * 40) (centerX w.bbox)) []

/-- Fallback path of `extractNeededValuesFromWords` (parseNeeded.ts:88-150):
no "Needed" header found; infer the value column from the densest 40px bucket
of money-shaped token centers, band = median center ± 120px. -/
def fallbackParse (words : List OcrWord) : NeededParseResult :=
  let moneyWords := words.filter (fun w => (parseMoneyToPence w.text).isSome)
  if moneyWords.length < 2 then ⟨[], [], 0, ⟨none, none, none⟩⟩
  else
    match (stableSort (fun a b => decide (b.2.1 ≤ a.2.1)) (buildBuckets moneyWords)).head? with
    | none => ⟨[], [], 0, ⟨none, none, none⟩⟩
    | some best =>
      let xs := stableSort (fun a b => decide (a ≤ b)) best.2.2
      let medianCx := (xs.get? (xs.length / 2)).getD ((best.1 : Rat))
      let colX0 := medianCx - 120
      let colX1 := medianCx + 120
      let allLines := clusterByLine (words.filter (fun w => !(jsTrim w.text).isEmpty)) 15
      let allRows := parseRowsFromLines allLines colX0 colX1
      let dedupedRows := dedupeRowsAux allRows []
      let neededPenceValues := dedupedRows.filterMap (fun r => r.neededPence)
      ⟨neededPenceValues, dedupedRows, sumPence neededPenceValues,
        ⟨none, some colX0, some colX1⟩⟩

/-- Header selection (parseNeeded.ts:84-86): stable-sort by confidence
descending and take the head; the `??`-fallback sort by text length can only
be reached when there are no candidates at all, where it also yields nothing. -/
def selectHeader (candidates : List OcrWord) : Option OcrWord :=
  match (stableSort (fun a b => decide (b.confidence ≤ a.confidence)) candidates).head? with
  | some h => some h
  | none => (stableSort (fun a b => decide (b.text.length ≤ a.text.length)) candidates).head?

/-- Key of the multi-pass row merge map: `name.toLowerCase().trim()` with
whitespace collapsed, and the amount. -/
def rowKey (r : NeededRow) : String × Option Int :=
  (collapseWs (jsTrim (jsToLower r.name)), r.neededPence)

def rowMapGet (m : List ((String × Option Int) × NeededRow)) (k : String × Option Int) :
    Option NeededRow :=
  match m with
  | [] => none
  | e :: rest => if e.1 = k then some e.2 else rowMapGet rest k

def rowMapSet (m : List ((String × Option Int) × NeededRow)) (k : String × Option Int)
    (v : NeededRow) : List ((String × Option Int) × NeededRow) :=
  match m with
  | [] => [(k, v)]
  | e :: rest => if e.1 = k then (k, v) :: rest else e :: rowMapSet rest k v

/-- Multi-pass row merge (parseNeeded.ts:285-302): keep per key the row with
higher confidence, preferring a value-bearing row on confidence ties. -/
def buildRowMap (rows : List NeededRow) : List ((String × Option Int) × NeededRow) :=
  rows.foldl
    (fun m row =>
      match rowMapGet m (rowKey row) with
      | none => rowMapSet m (rowKey row) row
      | some ex =>
        if ex.confidence < row.confidence ∨
            (row.confidence = ex.confidence ∧ row.neededPence.isSome ∧ ex.neededPence = none) then
          rowMapSet m (rowKey row) row
        else m)
    []

/-- Fuzzy name similarity of the final merge (parseNeeded.ts:312-322). -/
def similarRowsFilter (row : NeededRow) (key : String × Option Int)
    (e : (String × Option Int) × NeededRow) : Bool :=
  if e.1 = key then true
  else
    let name1 := jsTrim (jsToLower row.name)
    let name2 := jsTrim (jsToLower e.2.name)
    (name1.length > 0 && name2.length > 0 &&
        (containsSeq name1.toList name2.toList || containsSeq name2.toList name1.toList ||
          decide (|(name1.length : Int) - (name2.length : Int)| ≤ 2))) &&
      (e.2.neededPence == row.neededPence ||
        (e.2.neededPence.isSome && row.neededPence.isSome))

/-- Comparator of the best-row pick (parseNeeded.ts:327-332), as
`comparator(a, b) <= 0`: confidence descending, then value-bearing first,
then name length ascending. -/
def rowBefore (a b : NeededRow) : Bool :=
  if a.confidence ≠ b.confidence then decide (b.confidence < a.confidence)
  else if a.neededPence.isSome ∧ b.neededPence = none then true
  else if a.neededPence = none ∧ b.neededPence.isSome then false
  else decide (a.name.length ≤ b.name.length)

/-- The fuzzy-merge loop (parseNeeded.ts:305-336): walk the row-map entries,
skip processed keys, pick the best row among the similar group, and mark the
whole group processed. -/
def fuzzyMergeGo (entries : List ((String × Option Int) × NeededRow)) :
    List ((String × Option Int) × NeededRow) → List (String × Option Int) → List NeededRow
  | [], _ => []
  | (k, row) :: rest, processed =>
    if k ∈ processed then fuzzyMergeGo entries rest processed
    else
      let similar := entries.filter (similarRowsFilter row k)
      -- the group always contains the current entry, so the sorted list is
      -- non-empty and the default is unreachable
      let best := ((stableSort rowBefore (similar.map (fun e => e.2))).head?).getD row
      best :: fuzzyMergeGo entries rest (processed ++ similar.map (fun e => e.1))

/-- Header path of `extractNeededValuesFromWords` (parseNeeded.ts:153-361):
column band from the header's box padded by 120% of its width, rows collected
over five clustering/band passes, then merged and fuzzy-deduplicated. -/
def headerParse (words : List OcrWord) (header : OcrWord) : NeededParseResult :=
  let headerWidth := max 10 (header.bbox.x1 - header.bbox.x0)
  let pad : Rat := (jsRound (headerWidth * 1.2) : Rat)
  let colX0 := min header.bbox.x0 header.bbox.x1 - pad
  let colX1 := max header.bbox.x0 header.bbox.x1 + pad
  let minY := header.bbox.y1 + 4
  let belowHeader := words.filter (fun w => !(jsTrim w.text).isEmpty && decide (minY ≤ w.bbox.y0))
  let allRows :=
    parseRowsFromLines (clusterByLine belowHeader 15) colX0 colX1 ++
    parseRowsFromLines (clusterByLine belowHeader 20) colX0 colX1 ++
    parseRowsFromLines (clusterByLine belowHeader 10) colX0 colX1 ++
    parseRowsFromLines (clusterByLine belowHeader 15) (colX0 - 20) (colX1 + 20) ++
    parseRowsFromLines (clusterByLine belowHeader 12) (colX0 + 10) (colX1 - 10)
  let dedupedRows := fuzzyMergeGo (buildRowMap allRows) (buildRowMap allRows) []
  let neededPenceValues := dedupedRows.filterMap (fun r => r.neededPence)
  ⟨neededPenceValues, dedupedRows, sumPence neededPenceValues,
    ⟨some (header.text, header.bbox), some colX0, some colX1⟩⟩

/-- `extractNeededValuesFromWords` (parseNeeded.ts:77): find the "Needed"
header among the tokens; parse below it, or fall back to spatial column
inference. -/
def extractNeededValuesFromWords (words : List OcrWord) : NeededParseResult :=
  let candidates := words.filter isLikelyNeededHeader
  match selectHeader candidates with
  | none => fallbackParse words
  | some header => headerParse words header

/-! ## Target calculator (`funding/index.ts`, `handleUpdateFundingCommand`) -/

structure TargetResult where
  remainingTotalPence : Int
  daysLeft : Int
  dailyTargetPence : Int
  perShiftPence : Int
deriving DecidableEq

/-- The manual-adjustment update (index.ts:235-239): optional reset, then
`add` subtracts and `remove` adds the minor-unit amount. -/
def applyManualAdjustment (prior : Int) (resetAdjustment : Bool)
    (addAmount removeAmount : Option Rat) : Int :=
  let a0 := if resetAdjustment then 0 else prior
  let a1 := match addAmount with
    | some x => a0 - poundsToPence x
    | none => a0
  match removeAmount with
  | some x => a1 + poundsToPence x
  | none => a1

/-- The target computation (index.ts:273-292): remaining total, days left
(positive override, else inclusive day count from the shift-day date to the
end date clamped to at least 1, else the missing-end-date error `none`),
daily and per-shift ceilings.  A zero or negative override is falsy
respectively fails the `> 0` test, so it falls through to the end date. -/
def computeFundingTargets (totalPence manualAdjustmentPence : Int)
    (daysLeftOverride : Option Int) (currentEndDate : Option CivilDate)
    (shiftInfo : ShiftInfo) : Option TargetResult :=
  let remainingTotalPence := totalPence + manualAdjustmentPence
  let fromEndDate : Option Int :=
    currentEndDate.map (fun e => max 1 (daysBetweenIsoInclusive shiftInfo.shiftDayIsoDate e))
  let daysLeft : Option Int :=
    match daysLeftOverride with
    | some o => if 0 < o then some o else fromEndDate
    | none => fromEndDate
  match daysLeft with
  | none => none
  | some dl =>
    let dailyTargetPence := Int.ceil ((remainingTotalPence : Rat) / (dl : Rat))
    let perShiftPence :=
      Int.ceil ((dailyTargetPence : Rat) / (shiftInfo.remainingShiftsToday.length : Rat))
    some ⟨remainingTotalPence, dl, dailyTargetPence, perShiftPence⟩

/-! ## Concrete sample data for witnesses and counterexamples -/

/-- A shift-day state with two remaining shifts, as in the target scenario. -/
def sampleShiftInfoDN : ShiftInfo :=
  ⟨⟨⟨2025, 1, 1⟩, 12, 0, 0⟩, ⟨2025, 1, 1⟩, ShiftName.Day, [ShiftName.Day, ShiftName.Night]⟩

def sampleBBoxA : BBox := ⟨0, 0, 40, 10⟩

def sampleBBoxB : BBox := ⟨100, 0, 160, 10⟩

/-- Header candidate with the shorter text. -/
def hdrCandShort : OcrWord := ⟨"need", 50, sampleBBoxA⟩

/-- Header candidate tied in confidence, with the longer text. -/
def hdrCandLong : OcrWord := ⟨"needed", 50, sampleBBoxB⟩

/-- A low-confidence multi-character token with no digit or currency symbol. -/
def lowConfWord : OcrWord := ⟨"ab", 10, sampleBBoxA⟩

/-- A single money-shaped token (and nothing else): header-less input for the
fallback path. -/
def singleMoneyWord : OcrWord := ⟨"5", 80, ⟨200, 0, 210, 10⟩⟩

def fallbackNameWord : OcrWord := ⟨"Alice", 90, ⟨0, 0, 50, 10⟩⟩

def fallbackMoneyWord1 : OcrWord := ⟨"5", 90, ⟨200, 0, 210, 10⟩⟩

def fallbackMoneyWord2 : OcrWord := ⟨"7", 90, ⟨200, 30, 210, 40⟩⟩

def fallbackSampleWords : List OcrWord :=
  [fallbackNameWord, fallbackMoneyWord1, fallbackMoneyWord2]

/-- The spec's sample amount strings. -/
def moneyStrDollar : String := "$1,234.56"

def moneyStrPlain : String := "1234.56"

def moneyStrPound : String := "£99"

def moneyStrEmpty : String := ""

def moneyStrAbc : String := "abc"

/-! ## Calendar proofs -/

theorem era_eq (y' t : Int) (ht0 : 0 ≤ t) (ht1 : t ≤ 365) :
    (yearStart y' + t) / 146097 = y' / 400 := by
  have h1 : y' / 4 = 100 * (y' / 400) + (y' - 400 * (y' / 400)) / 4 := by omega
  have h2 : y' / 100 = 4 * (y' / 400) + (y' - 400 * (y' / 400)) / 100 := by omega
  have h3 : (y' - 400 * (y' / 400)) / 400 = 0 := by omega
  unfold yearStart
  omega

theorem doe_eq (y' t : Int) (ht0 : 0 ≤ t) (ht1 : t ≤ 365) :
    yearStart y' + t - 146097 * ((yearStart y' + t) / 146097)
      = yearStart (y' - 400 * (y' / 400)) + t := by
  have h1 : y' / 4 = 100 * (y' / 400) + (y' - 400 * (y' / 400)) / 4 := by omega
  have h2 : y' / 100 = 4 * (y' / 400) + (y' - 400 * (y' / 400)) / 100 := by omega
  have h3 : (y' - 400 * (y' / 400)) / 400 = 0 := by omega
  rw [era_eq y' t ht0 ht1]
  unfold yearStart
  omega

theorem yoe_eq (r t : Int) (hr0 : 0 ≤ r) (hr1 : r ≤ 399)
    (ht0 : 0 ≤ t)
    (ht1 : t ≤ 364 ∨ (t = 365 ∧ (r + 1) % 4 = 0 ∧ ((r + 1) % 100 ≠ 0 ∨ (r + 1) % 400 = 0))) :
    cfdYoe (yearStart r + t) = r := by
  have d4 : 4 * ((r + 1) / 4) = r + 1 - (r + 1) % 4 := by omega
  have d100 : 100 * ((r + 1) / 100) = r + 1 - (r + 1) % 100 := by omega
  have k1 : (r + 1) % 100 = 0 → (r + 1) % 4 = 0 := by omega
  have k2 : (r + 1) % 400 = 0 → (r + 1) % 100 = 0 := by omega
  have hg : (yearStart r + t) / 365 = r ∨ (yearStart r + t) / 365 = r + 1 := by
    unfold yearStart; omega
  unfold cfdYoe yearStart
  simp only []
  rcases hg with hg | hg <;> unfold yearStart at hg <;> split <;> unfold yearStart at * <;> omega

theorem yearDoy (y' t : Int) (ht0 : 0 ≤ t)
    (ht1 : t ≤ 364 ∨ (t = 365 ∧ (y' + 1) % 4 = 0 ∧ ((y' + 1) % 100 ≠ 0 ∨ (y' + 1) % 400 = 0))) :
    cfdYoe (yearStart y' + t - 146097 * ((yearStart y' + t) / 146097))
        + ((yearStart y' + t) / 146097) * 400 = y'
      ∧ yearStart y' + t - 146097 * ((yearStart y' + t) / 146097)
          - yearStart (cfdYoe (yearStart y' + t - 146097 * ((yearStart y' + t) / 146097))) = t := by
  have ht365 : t ≤ 365 := by omega
  have hr := doe_eq y' t ht0 ht365
  set r := y' - 400 * (y' / 400) with hrdef
  have hr0 : 0 ≤ r := by omega
  have hr1 : r ≤ 399 := by omega
  have hmod : (r + 1) % 4 = (y' + 1) % 4 ∧ (r + 1) % 100 = (y' + 1) % 100
      ∧ (r + 1) % 400 = (y' + 1) % 400 := by omega
  have hy := yoe_eq r t hr0 hr1 ht0 (by omega)
  rw [hr, hy]
  constructor
  · rw [era_eq y' t ht0 ht365]; omega
  · omega

set_option maxHeartbeats 1600000 in
/-- `civilFromDays` inverts `daysFromCivil` on well-formed dates: the model of
`Date.UTC` composed with the model of the `getUTC*` readback is the
identity. -/
theorem civil_roundtrip (c : CivilDate) (h : ValidDate c) :
    civilFromDays (daysFromCivil c) = c := by
  obtain ⟨y, m, d⟩ := c
  obtain ⟨hm1, hm2, hd1, hd2⟩ := h
  simp only [] at hm1 hm2 hd1 hd2
  simp only [daysInMonth, isLeapYear, Bool.and_eq_true, decide_eq_true_eq, Bool.or_eq_true,
    bne_iff_ne, ne_eq] at hd2
  unfold civilFromDays daysFromCivil
  simp only []
  interval_cases m <;> norm_num <;> norm_num at hd2 <;>
    [
      (rw [show yearStart (y - 1) + 306 + d - 1 = yearStart (y - 1) + (306 + d - 1) by ring];
       obtain ⟨h1, h2⟩ := yearDoy (y - 1) (306 + d - 1) (by omega) (by omega);
       refine ⟨?_, ?_, ?_⟩ <;> (try split_ifs) <;> omega);
      (rw [show yearStart (y - 1) + 337 + d - 1 = yearStart (y - 1) + (337 + d - 1) by ring];
       obtain ⟨h1, h2⟩ := yearDoy (y - 1) (337 + d - 1) (by split at hd2 <;> omega) (by split at hd2 <;> omega);
       split at hd2 <;> refine ⟨?_, ?_, ?_⟩ <;> (try split_ifs) <;> omega);
      (rw [show yearStart y + d - 1 = yearStart y + (d - 1) by ring];
       obtain ⟨h1, h2⟩ := yearDoy y (d - 1) (by omega) (by omega);
       refine ⟨?_, ?_, ?_⟩ <;> (try split_ifs) <;> omega);
      (rw [show yearStart y + 31 + d - 1 = yearStart y + (31 + d - 1) by ring];
       obtain ⟨h1, h2⟩ := yearDoy y (31 + d - 1) (by omega) (by omega);
       refine ⟨?_, ?_, ?_⟩ <;> (try split_ifs) <;> omega);
      (rw [show yearStart y + 61 + d - 1 = yearStart y + (61 + d - 1) by ring];
       obtain ⟨h1, h2⟩ := yearDoy y (61 + d - 1) (by omega) (by omega);
       refine ⟨?_, ?_, ?_⟩ <;> (try split_ifs) <;> omega);
      (rw [show yearStart y + 92 + d - 1 = yearStart y + (92 + d - 1) by ring];
       obtain ⟨h1, h2⟩ := yearDoy y (92 + d - 1) (by omega) (by omega);
       refine ⟨?_, ?_, ?_⟩ <;> (try split_ifs) <;> omega);
      (rw [show yearStart y + 122 + d - 1 = yearStart y + (122 + d - 1) by ring];
       obtain ⟨h1, h2⟩ := yearDoy y (122 + d - 1) (by omega) (by omega);
       refine ⟨?_, ?_, ?_⟩ <;> (try split_ifs) <;> omega);
      (rw [show yearStart y + 153 + d - 1 = yearStart y + (153 + d - 1) by ring];
       obtain ⟨h1, h2⟩ := yearDoy y (153 + d - 1) (by omega) (by omega);
       refine ⟨?_, ?_, ?_⟩ <;> (try split_ifs) <;> omega);
      (rw [show yearStart y + 184 + d - 1 = yearStart y + (184 + d - 1) by ring];
       obtain ⟨h1, h2⟩ := yearDoy y (184 + d - 1) (by omega) (by omega);
       refine ⟨?_, ?_, ?_⟩ <;> (try split_ifs) <;> omega);
      (rw [show yearStart y + 214 + d - 1 = yearStart y + (214 + d - 1) by ring];
       obtain ⟨h1, h2⟩ := yearDoy y (214 + d - 1) (by omega) (by omega);
       refine ⟨?_, ?_, ?_⟩ <;> (try split_ifs) <;> omega);
      (rw [show yearStart y + 245 + d - 1 = yearStart y + (245 + d - 1) by ring];
       obtain ⟨h1, h2⟩ := yearDoy y (245 + d - 1) (by omega) (by omega);
       refine ⟨?_, ?_, ?_⟩ <;> (try split_ifs) <;> omega);
      (rw [show yearStart y + 275 + d - 1 = yearStart y + (275 + d - 1) by ring];
       obtain ⟨h1, h2⟩ := yearDoy y (275 + d - 1) (by omega) (by omega);
       refine ⟨?_, ?_, ?_⟩ <;> (try split_ifs) <;> omega)]

/-- Stepping the calendar back one day subtracts one epoch day. -/
theorem daysFromCivil_prev (c : CivilDate) (h : ValidDate c) :
    daysFromCivil (prevCalendarDate c) = daysFromCivil c - 1 := by
  obtain ⟨y, m, d⟩ := c
  obtain ⟨hm1, hm2, hd1, hd2⟩ := h
  simp only [] at hm1 hm2 hd1 hd2
  unfold prevCalendarDate
  simp only []
  split_ifs with hd hm
  · unfold daysFromCivil yearStart
    simp only []
    split_ifs <;> omega
  · have hm2' : (2 : Int) ≤ m := by omega
    interval_cases m <;>
      (unfold daysFromCivil yearStart
       simp only [daysInMonth, isLeapYear, Bool.and_eq_true, decide_eq_true_eq,
         Bool.or_eq_true, bne_iff_ne, ne_eq]
       norm_num) <;>
      (try split_ifs) <;> omega
  · have hm' : m = 1 := by omega
    subst hm'
    unfold daysFromCivil yearStart
    norm_num
    omega

/-- The calendar predecessor of a well-formed date is well-formed. -/
theorem prev_valid (c : CivilDate) (h : ValidDate c) : ValidDate (prevCalendarDate c) := by
  obtain ⟨y, m, d⟩ := c
  obtain ⟨hm1, hm2, hd1, hd2⟩ := h
  dsimp only at hm1 hm2 hd1 hd2
  unfold prevCalendarDate
  dsimp only
  split_ifs with hd hm
  · refine ⟨hm1, hm2, ?_, ?_⟩
    · show (1 : Int) ≤ d - 1
      omega
    · show d - 1 ≤ daysInMonth y m
      omega
  · refine ⟨?_, ?_, ?_, ?_⟩
    · show (1 : Int) ≤ m - 1
      omega
    · show m - 1 ≤ (12 : Int)
      omega
    · show (1 : Int) ≤ daysInMonth y (m - 1)
      simp only [daysInMonth]
      split_ifs <;> omega
    · show daysInMonth y (m - 1) ≤ daysInMonth y (m - 1)
      exact le_refl _
  · refine ⟨?_, ?_, ?_, ?_⟩
    · show (1 : Int) ≤ 12
      norm_num
    · show (12 : Int) ≤ 12
      norm_num
    · show (1 : Int) ≤ 31
      norm_num
    · show (31 : Int) ≤ daysInMonth (y - 1) 12
      simp only [daysInMonth]
      norm_num

/-- `addDaysIso` with delta `-1` is the calendar predecessor. -/
theorem addDaysIso_neg_one (c : CivilDate) (h : ValidDate c) :
    addDaysIso c (-1) = prevCalendarDate c := by
  have h1 := daysFromCivil_prev c h
  unfold addDaysIso
  rw [show daysFromCivil c + (-1) = daysFromCivil (prevCalendarDate c) by omega]
  exact civil_roundtrip _ (prev_valid c h)

theorem prevCalendarDate_ne (c : CivilDate) (h : ValidDate c) : prevCalendarDate c ≠ c := by
  intro heq
  have h1 := daysFromCivil_prev c h
  rw [heq] at h1
  omega

/-- C4: at 02:59 civil time on any date `d` the shift info reports the Night
shift and the previous calendar date as shift-day, while at 03:00 on the same
date it reports `d` itself; the two instants lie in different shift-days. -/
theorem shiftBoundary_0259_0300 (c : CivilDate) (s1 s2 : Int) (h : ValidDate c) :
    (getUkShiftInfo ⟨c, 2, 59, s1⟩).currentShift = ShiftName.Night
    ∧ (getUkShiftInfo ⟨c, 2, 59, s1⟩).shiftDayIsoDate = prevCalendarDate c
    ∧ (getUkShiftInfo ⟨c, 3, 0, s2⟩).shiftDayIsoDate = c
    ∧ (getUkShiftInfo ⟨c, 2, 59, s1⟩).shiftDayIsoDate
        ≠ (getUkShiftInfo ⟨c, 3, 0, s2⟩).shiftDayIsoDate := by
  unfold getUkShiftInfo
  norm_num
  rw [addDaysIso_neg_one c h]
  exact ⟨rfl, prevCalendarDate_ne c h⟩

/-- Witness for C4 at 2024-03-01: 02:59 is Night on shift-day 2024-02-29,
03:00 opens shift-day 2024-03-01. -/
theorem shiftBoundary_0259_0300_witness :
    ValidDate ⟨2024, 3, 1⟩
    ∧ ((getUkShiftInfo ⟨⟨2024, 3, 1⟩, 2, 59, 0⟩).currentShift = ShiftName.Night
      ∧ (getUkShiftInfo ⟨⟨2024, 3, 1⟩, 2, 59, 0⟩).shiftDayIsoDate = prevCalendarDate ⟨2024, 3, 1⟩
      ∧ (getUkShiftInfo ⟨⟨2024, 3, 1⟩, 3, 0, 0⟩).shiftDayIsoDate = ⟨2024, 3, 1⟩
      ∧ (getUkShiftInfo ⟨⟨2024, 3, 1⟩, 2, 59, 0⟩).shiftDayIsoDate
          ≠ (getUkShiftInfo ⟨⟨2024, 3, 1⟩, 3, 0, 0⟩).shiftDayIsoDate) :=
  ⟨by decide, shiftBoundary_0259_0300 ⟨2024, 3, 1⟩ 0 0 (by decide)⟩

/-! ## Stable-sort lemmas -/

theorem mem_insertStable (le : α → α → Bool) (x : α) (l : List α) (a : α) :
    a ∈ insertStable le x l ↔ a = x ∨ a ∈ l := by
  induction l with
  | nil => simp [insertStable]
  | cons y ys ih =>
    unfold insertStable
    split
    · simp only [List.mem_cons, ih]
      try tauto
    · simp only [List.mem_cons]
      try tauto

theorem mem_stableSort_aux (le : α → α → Bool) (l acc : List α) (a : α) :
    a ∈ l.foldl (fun acc x => insertStable le x acc) acc ↔ a ∈ acc ∨ a ∈ l := by
  induction l generalizing acc with
  | nil => simp
  | cons x t ih =>
    simp only [List.foldl_cons, ih, mem_insertStable, List.mem_cons]
    tauto

theorem mem_stableSort (le : α → α → Bool) (l : List α) (a : α) :
    a ∈ stableSort le l ↔ a ∈ l := by
  unfold stableSort
  rw [mem_stableSort_aux]
  simp

theorem length_insertStable (le : α → α → Bool) (x : α) (l : List α) :
    (insertStable le x l).length = l.length + 1 := by
  induction l with
  | nil => rfl
  | cons y ys ih =>
    unfold insertStable
    split <;> simp [ih]

theorem length_stableSort_aux (le : α → α → Bool) (l acc : List α) :
    (l.foldl (fun acc x => insertStable le x acc) acc).length = acc.length + l.length := by
  induction l generalizing acc with
  | nil => rfl
  | cons x t ih =>
    simp only [List.foldl_cons, ih, length_insertStable, List.length_cons]
    omega

theorem length_stableSort (le : α → α → Bool) (l : List α) :
    (stableSort le l).length = l.length := by
  unfold stableSort
  rw [length_stableSort_aux]
  simp

theorem pairwise_insertStable (le : α → α → Bool)
    (htot : ∀ a b, le a b = true ∨ le b a = true)
    (htrans : ∀ a b c, le a b = true → le b c = true → le a c = true)
    (x : α) (l : List α) (hl : List.Pairwise (fun a b => le a b = true) l) :
    List.Pairwise (fun a b => le a b = true) (insertStable le x l) := by
  induction l with
  | nil => simp [insertStable]
  | cons y ys ih =>
    rcases List.pairwise_cons.mp hl with ⟨hy, hys⟩
    unfold insertStable
    split
    · rename_i hyx
      refine List.pairwise_cons.mpr ⟨?_, ih hys⟩
      intro b hb
      rcases (mem_insertStable le x ys b).mp hb with hb | hb
      · subst hb; exact hyx
      · exact hy b hb
    · rename_i hyx
      have hxy : le x y = true := by
        rcases htot x y with h | h
        · exact h
        · exact absurd h hyx
      refine List.pairwise_cons.mpr ⟨?_, hl⟩
      intro b hb
      rcases List.mem_cons.mp hb with hb | hb
      · subst hb; exact hxy
      · exact htrans x y b hxy (hy b hb)

theorem pairwise_stableSort_aux (le : α → α → Bool)
    (htot : ∀ a b, le a b = true ∨ le b a = true)
    (htrans : ∀ a b c, le a b = true → le b c = true → le a c = true)
    (l acc : List α) (hacc : List.Pairwise (fun a b => le a b = true) acc) :
    List.Pairwise (fun a b => le a b = true)
      (l.foldl (fun acc x => insertStable le x acc) acc) := by
  induction l generalizing acc with
  | nil => exact hacc
  | cons x t ih =>
    exact ih (insertStable le x acc) (pairwise_insertStable le htot htrans x acc hacc)

theorem pairwise_stableSort (le : α → α → Bool)
    (htot : ∀ a b, le a b = true ∨ le b a = true)
    (htrans : ∀ a b c, le a b = true → le b c = true → le a c = true)
    (l : List α) :
    List.Pairwise (fun a b => le a b = true) (stableSort le l) :=
  pairwise_stableSort_aux le htot htrans l [] List.Pairwise.nil

/-- C5 (amended): for a non-empty candidate list the chosen header is a
candidate of maximal confidence.  Confidence ties are resolved by the stable
sort's input order; the text-length comparison in the source is unreachable
(see the counterexample theorem). -/
theorem selectHeader_max_confidence (candidates : List OcrWord) (hne : candidates ≠ []) :
    ∃ h, selectHeader candidates = some h ∧ h ∈ candidates
      ∧ ∀ c ∈ candidates, c.confidence ≤ h.confidence := by
  have hlen : (stableSort (fun a b => decide (b.confidence ≤ a.confidence)) candidates).length
      = candidates.length := length_stableSort _ candidates
  cases hs : stableSort (fun a b => decide (b.confidence ≤ a.confidence)) candidates with
  | nil =>
    rw [hs] at hlen
    exact absurd (List.length_eq_zero.mp hlen.symm) hne
  | cons h t =>
    refine ⟨h, ?_, ?_, ?_⟩
    · unfold selectHeader
      rw [hs]
      rfl
    · have : h ∈ stableSort (fun a b => decide (b.confidence ≤ a.confidence)) candidates := by
        rw [hs]; exact List.mem_cons_self h t
      exact (mem_stableSort _ candidates h).mp this
    · intro c hc
      have hp := pairwise_stableSort (fun a b => decide (b.confidence ≤ a.confidence))
        (fun a b => by
          simp only [decide_eq_true_eq]
          exact le_total b.confidence a.confidence)
        (fun a b c => by
          simp only [decide_eq_true_eq]
          intro h1 h2
          exact le_trans h2 h1)
        candidates
      rw [hs] at hp
      rcases List.pairwise_cons.mp hp with ⟨hhead, _⟩
      have hc' : c ∈ stableSort (fun a b => decide (b.confidence ≤ a.confidence)) candidates :=
        (mem_stableSort _ candidates c).mpr hc
      rw [hs] at hc'
      rcases List.mem_cons.mp hc' with hc' | hc'
      · subst hc'; exact le_refl _
      · exact of_decide_eq_true (hhead c hc')

/-- Counterexample to C5 as stated: two header candidates tied at the maximal
confidence; the selection returns the first in input order, whose text is
strictly shorter than the other tied candidate's, so the longest-text
tie-break of the claim does not happen. -/
theorem selectHeader_tie_not_longest :
    selectHeader [hdrCandShort, hdrCandLong] = some hdrCandShort
    ∧ hdrCandShort.confidence = hdrCandLong.confidence
    ∧ hdrCandShort.text.length < hdrCandLong.text.length
    ∧ isLikelyNeededHeader hdrCandShort = true
    ∧ isLikelyNeededHeader hdrCandLong = true := by
  refine ⟨?_, rfl, by decide, by decide, by decide⟩
  unfold selectHeader stableSort
  simp only [List.foldl_cons, List.foldl_nil, insertStable]
  norm_num [hdrCandShort, hdrCandLong]

theorem filterMap_length_eq (f : α → Option β) (l : List α) :
    (l.filterMap f).length = (l.filter (fun x => (f x).isSome)).length := by
  induction l with
  | nil => rfl
  | cons x t ih =>
    cases hx : f x <;>
      simp [List.filterMap_cons, hx, List.filter_cons, ih]

theorem sumPence_eq_sum (l : List Int) : sumPence l = l.sum := by
  unfold sumPence
  rw [List.sum_eq_foldl]

theorem fallbackParse_invariant (words : List OcrWord) :
    (fallbackParse words).neededPenceValues
        = (fallbackParse words).rows.filterMap (fun r => r.neededPence)
    ∧ (fallbackParse words).totalPence = sumPence ((fallbackParse words).rows.filterMap
        (fun r => r.neededPence)) := by
  unfold fallbackParse
  dsimp only
  split
  · exact ⟨rfl, rfl⟩
  · split
    · exact ⟨rfl, rfl⟩
    · exact ⟨rfl, rfl⟩

theorem headerParse_invariant (words : List OcrWord) (header : OcrWord) :
    (headerParse words header).neededPenceValues
        = (headerParse words header).rows.filterMap (fun r => r.neededPence)
    ∧ (headerParse words header).totalPence = sumPence ((headerParse words header).rows.filterMap
        (fun r => r.neededPence)) :=
  ⟨rfl, rfl⟩

/-- C3: in every parse result, `neededPenceValues` is exactly the list of
non-null row amounts (so it has one element per value-bearing row), and
`totalPence` is their sum; null-amount rows count as rows but contribute
nothing. -/
theorem extract_result_invariant (words : List OcrWord) :
    (extractNeededValuesFromWords words).neededPenceValues
        = (extractNeededValuesFromWords words).rows.filterMap (fun r => r.neededPence)
    ∧ (extractNeededValuesFromWords words).neededPenceValues.length
        = ((extractNeededValuesFromWords words).rows.filter
            (fun r => r.neededPence.isSome)).length
    ∧ (extractNeededValuesFromWords words).totalPence
        = ((extractNeededValuesFromWords words).rows.filterMap (fun r => r.neededPence)).sum := by
  have key : (extractNeededValuesFromWords words).neededPenceValues
        = (extractNeededValuesFromWords words).rows.filterMap (fun r => r.neededPence)
      ∧ (extractNeededValuesFromWords words).totalPence
        = sumPence ((extractNeededValuesFromWords words).rows.filterMap
            (fun r => r.neededPence)) := by
    unfold extractNeededValuesFromWords
    dsimp only
    cases hsel : selectHeader (words.filter isLikelyNeededHeader) with
    | none => exact fallbackParse_invariant words
    | some header => exact headerParse_invariant words header
  obtain ⟨hval, htot⟩ := key
  refine ⟨hval, ?_, ?_⟩
  · rw [hval]
    exact filterMap_length_eq _ _
  · rw [htot, sumPence_eq_sum]

/-- C10: the remaining-shift list is always a non-empty suffix of
[Morning, Day, Night] headed by the current shift, so the per-shift division
in the target calculator never divides by zero. -/
theorem remainingShifts_nonempty_suffix (now : UkNow) :
    (getUkShiftInfo now).remainingShiftsToday ≠ []
    ∧ (getUkShiftInfo now).remainingShiftsToday.head?
        = some (getUkShiftInfo now).currentShift
    ∧ (getUkShiftInfo now).remainingShiftsToday
        <:+ [ShiftName.Morning, ShiftName.Day, ShiftName.Night]
    ∧ 0 < (getUkShiftInfo now).remainingShiftsToday.length
    ∧ (((getUkShiftInfo now).remainingShiftsToday.length : Rat) ≠ 0) := by
  unfold getUkShiftInfo
  dsimp only
  split_ifs <;>
    first
      | exact (‹False›).elim
      | exact absurd rfl (by assumption)
      | exact ⟨by simp, rfl, ⟨[], rfl⟩, by simp, by norm_num⟩
      | exact ⟨by simp, rfl, ⟨[ShiftName.Morning], rfl⟩, by simp, by norm_num⟩
      | exact ⟨by simp, rfl, ⟨[ShiftName.Morning, ShiftName.Day], rfl⟩, by simp, by norm_num⟩

/-- C9: the money parser on the spec's examples: the three valid forms
give 123456, 123456 and 9900 minor units; the empty string and a
non-numeric string give `none` rather than an error. -/
theorem parseMoney_spec_values :
    parseMoneyToPence moneyStrDollar = some 123456
    ∧ parseMoneyToPence moneyStrPlain = some 123456
    ∧ parseMoneyToPence moneyStrPound = some 9900
    ∧ parseMoneyToPence moneyStrEmpty = none
    ∧ parseMoneyToPence moneyStrAbc = none := by
  decide

/-- C6 evaluation at the failing input: a two-character token with confidence
10 and no digit or currency symbol is dropped by the per-pass filter, although
the spec keeps low-confidence multi-character tokens; the length test in the
source is followed by an unconditional `return false`, so it never keeps
anything. -/
theorem keepOcrWord_drops_multichar_lowconf :
    keepOcrWord lowConfWord = false
    ∧ lowConfWord.text.length = 2
    ∧ lowConfWord.confidence < 25
    ∧ textHasMoneyChar lowConfWord.text = false := by
  decide

/-- C2: `add x` lowers the manual-adjustment accumulator by the minor-unit
value of `x` and `remove x` raises it; with parsed total 10000 and a zero
prior accumulator, `add 25.00` gives adjustment -2500 and remaining total
7500. -/
theorem manualAdjustment_spec (prior : Int) (x : Rat) :
    applyManualAdjustment prior false (some x) none = prior - poundsToPence x
    ∧ applyManualAdjustment prior false none (some x) = prior + poundsToPence x
    ∧ applyManualAdjustment 0 false (some 25) none = -2500
    ∧ 10000 + applyManualAdjustment 0 false (some 25) none = 7500
    ∧ (computeFundingTargets 10000 (applyManualAdjustment 0 false (some 25) none) (some 1)
        none sampleShiftInfoDN).map (fun r => r.remainingTotalPence) = some 7500 := by
  have h25 : poundsToPence 25 = 2500 := by
    unfold poundsToPence jsRound
    norm_num
  have ha : applyManualAdjustment 0 false (some 25) none = 0 - poundsToPence 25 := rfl
  refine ⟨rfl, rfl, ?_, ?_, ?_⟩
  · rw [ha, h25]
    decide
  · rw [ha, h25]
    decide
  · rw [ha, h25]
    norm_num
    unfold computeFundingTargets
    dsimp only
    norm_num

/-- C1: whenever the target computation returns a result, the remaining total
is parsed total plus manual adjustment, days left is a positive override if
supplied and otherwise `max 1 (daysBetweenInclusive shiftDay end)`, the daily
target is the ceiling of remaining over days left, and the per-shift target is
the ceiling of the daily target over the number of remaining shifts. -/
theorem computeTargets_spec (T A : Int) (o : Option Int) (e : CivilDate) (si : ShiftInfo)
    (r : TargetResult) (h : computeFundingTargets T A o (some e) si = some r) :
    r.remainingTotalPence = T + A
    ∧ r.daysLeft = (match o with
        | some ov => if 0 < ov then ov else max 1 (daysBetweenIsoInclusive si.shiftDayIsoDate e)
        | none => max 1 (daysBetweenIsoInclusive si.shiftDayIsoDate e))
    ∧ r.dailyTargetPence = Int.ceil (((T + A : Int) : Rat) / (r.daysLeft : Rat))
    ∧ r.perShiftPence
        = Int.ceil ((r.dailyTargetPence : Rat) / (si.remainingShiftsToday.length : Rat)) := by
  unfold computeFundingTargets at h
  dsimp only [Option.map] at h
  cases o with
  | none =>
    dsimp only at h
    simp only [Option.some.injEq] at h
    subst h
    exact ⟨rfl, rfl, rfl, rfl⟩
  | some ov =>
    dsimp only at h
    by_cases hov : 0 < ov
    · rw [if_pos hov] at h
      dsimp only at h
      simp only [Option.some.injEq] at h
      subst h
      refine ⟨rfl, ?_, rfl, rfl⟩
      show _ = if 0 < ov then ov else 1 ⊔ daysBetweenIsoInclusive si.shiftDayIsoDate e
      rw [if_pos hov]
    · rw [if_neg hov] at h
      dsimp only at h
      simp only [Option.some.injEq] at h
      subst h
      refine ⟨rfl, ?_, rfl, rfl⟩
      show _ = if 0 < ov then ov else 1 ⊔ daysBetweenIsoInclusive si.shiftDayIsoDate e
      rw [if_neg hov]

/-- Witness for C1, the spec's target scenario: total 10000, no adjustment,
override 4 days, two remaining shifts -> daily 2500, per shift 1250. -/
theorem computeTargets_spec_witness :
    computeFundingTargets 10000 0 (some 4) (some ⟨2025, 1, 10⟩) sampleShiftInfoDN
        = some ⟨10000, 4, 2500, 1250⟩
    ∧ ((⟨10000, 4, 2500, 1250⟩ : TargetResult).remainingTotalPence = 10000 + 0
      ∧ (⟨10000, 4, 2500, 1250⟩ : TargetResult).daysLeft = (match (some 4 : Option Int) with
          | some ov => if 0 < ov then ov
              else max 1 (daysBetweenIsoInclusive sampleShiftInfoDN.shiftDayIsoDate ⟨2025, 1, 10⟩)
          | none => max 1 (daysBetweenIsoInclusive sampleShiftInfoDN.shiftDayIsoDate ⟨2025, 1, 10⟩))
      ∧ (⟨10000, 4, 2500, 1250⟩ : TargetResult).dailyTargetPence
          = Int.ceil (((10000 + 0 : Int) : Rat) / ((⟨10000, 4, 2500, 1250⟩ : TargetResult).daysLeft : Rat))
      ∧ (⟨10000, 4, 2500, 1250⟩ : TargetResult).perShiftPence
          = Int.ceil (((⟨10000, 4, 2500, 1250⟩ : TargetResult).dailyTargetPence : Rat)
              / (sampleShiftInfoDN.remainingShiftsToday.length : Rat))) := by
  have hc : computeFundingTargets 10000 0 (some 4) (some ⟨2025, 1, 10⟩) sampleShiftInfoDN
      = some ⟨10000, 4, 2500, 1250⟩ := by
    unfold computeFundingTargets sampleShiftInfoDN
    dsimp only
    norm_num
  exact ⟨hc, computeTargets_spec 10000 0 (some 4) ⟨2025, 1, 10⟩ sampleShiftInfoDN
    ⟨10000, 4, 2500, 1250⟩ hc⟩

/-! ## Word-merge lemmas (for C8) -/

theorem mapGet_mapSet_self (m : AssocWords) (k : MergeKey) (v : OcrWord) :
    mapGet (mapSet m k v) k = some v := by
  induction m with
  | nil => simp [mapSet, mapGet]
  | cons e rest ih =>
    unfold mapSet
    split
    · simp [mapGet]
    · rename_i hne
      unfold mapGet
      rw [if_neg hne]
      exact ih

theorem mapGet_mapSet_ne (m : AssocWords) (k k' : MergeKey) (v : OcrWord) (hne : k' ≠ k) :
    mapGet (mapSet m k v) k' = mapGet m k' := by
  induction m with
  | nil =>
    unfold mapSet mapGet
    rw [if_neg (show ((k, v) : MergeKey × OcrWord).1 ≠ k' from Ne.symm hne)]
    rfl
  | cons e rest ih =>
    unfold mapSet
    split
    · rename_i heq
      unfold mapGet
      rw [if_neg (show ((k, v) : MergeKey × OcrWord).1 ≠ k' from Ne.symm hne),
        if_neg (show e.1 ≠ k' from heq ▸ Ne.symm hne)]
    · unfold mapGet
      split
      · rfl
      · exact ih

theorem phase1Step_dominates (m : AssocWords) (w : OcrWord) :
    ∃ e, mapGet (mergePhase1Step m w) (wordKey w) = some e ∧ w.confidence ≤ e.confidence := by
  unfold mergePhase1Step
  cases hg : mapGet m (wordKey w) with
  | none => exact ⟨w, mapGet_mapSet_self m _ w, le_refl _⟩
  | some ex =>
    dsimp only
    split
    · exact ⟨w, mapGet_mapSet_self m _ w, le_refl _⟩
    · rename_i hlt
      exact ⟨ex, hg, le_of_not_lt hlt⟩

theorem phase1Step_preserves (m : AssocWords) (w' : OcrWord) (k : MergeKey) (c : Rat)
    (h : ∃ e, mapGet m k = some e ∧ c ≤ e.confidence) :
    ∃ e, mapGet (mergePhase1Step m w') k = some e ∧ c ≤ e.confidence := by
  obtain ⟨e, hg, hc⟩ := h
  by_cases hk : k = wordKey w'
  · subst hk
    unfold mergePhase1Step
    rw [hg]
    dsimp only
    split
    · rename_i hlt
      exact ⟨w', mapGet_mapSet_self m _ w', le_of_lt (lt_of_le_of_lt hc hlt)⟩
    · exact ⟨e, hg, hc⟩
  · unfold mergePhase1Step
    cases hg' : mapGet m (wordKey w') with
    | none => exact ⟨e, (mapGet_mapSet_ne m _ k w' hk).trans hg, hc⟩
    | some ex =>
      dsimp only
      split
      · exact ⟨e, (mapGet_mapSet_ne m _ k w' hk).trans hg, hc⟩
      · exact ⟨e, hg, hc⟩

theorem foldl_phase1_preserves (ws : List OcrWord) (m : AssocWords) (k : MergeKey) (c : Rat)
    (h : ∃ e, mapGet m k = some e ∧ c ≤ e.confidence) :
    ∃ e, mapGet (ws.foldl mergePhase1Step m) k = some e ∧ c ≤ e.confidence := by
  induction ws generalizing m with
  | nil => exact h
  | cons w t ih => exact ih (mergePhase1Step m w) (phase1Step_preserves m w k c h)

theorem foldl_phase1_dominates (ws : List OcrWord) (m : AssocWords) :
    ∀ w ∈ ws, ∃ e, mapGet (ws.foldl mergePhase1Step m) (wordKey w) = some e
      ∧ w.confidence ≤ e.confidence := by
  induction ws generalizing m with
  | nil => intro w hw; cases hw
  | cons x t ih =>
    intro w hw
    rcases List.mem_cons.mp hw with hw | hw
    · subst hw
      exact foldl_phase1_preserves t (mergePhase1Step m w) _ _ (phase1Step_dominates m w)
    · exact ih (mergePhase1Step m x) w hw

theorem phase1_fold_id (ws : List OcrWord) (m : AssocWords)
    (hdom : ∀ w ∈ ws, ∃ e, mapGet m (wordKey w) = some e ∧ w.confidence ≤ e.confidence) :
    ws.foldl mergePhase1Step m = m := by
  induction ws with
  | nil => rfl
  | cons x t ih =>
    obtain ⟨e, hg, hc⟩ := hdom x (List.mem_cons_self x t)
    have hx : mergePhase1Step m x = m := by
      unfold mergePhase1Step
      rw [hg]
      dsimp only
      rw [if_neg (not_lt_of_le hc)]
    rw [List.foldl_cons, hx]
    exact ih (fun w hw => hdom w (List.mem_cons_of_mem x hw))

theorem mergePhase1_twice (ws : List OcrWord) : mergePhase1 [ws, ws] = mergePhase1 [ws] := by
  unfold mergePhase1
  simp only [List.foldl_cons, List.foldl_nil]
  exact phase1_fold_id ws _ (foldl_phase1_dominates ws [])

theorem phase2Step_seen_mono (st : List (String × Int) × AssocWords) (w : OcrWord)
    (k : String × Int) (h : k ∈ st.1) : k ∈ (mergePhase2Step st w).1 := by
  unfold mergePhase2Step
  split
  · exact h
  · dsimp only
    split
    · exact List.mem_append_left _ h
    · exact List.mem_append_left _ h

theorem phase2Step_adds (st : List (String × Int) × AssocWords) (w : OcrWord) :
    uniqueKey w ∈ (mergePhase2Step st w).1 := by
  unfold mergePhase2Step
  split
  · assumption
  · dsimp only
    split
    · exact List.mem_append_right _ (List.mem_singleton_self _)
    · exact List.mem_append_right _ (List.mem_singleton_self _)

theorem foldl_phase2_seen_mono (ws : List OcrWord) (st : List (String × Int) × AssocWords)
    (k : String × Int) (h : k ∈ st.1) : k ∈ (ws.foldl mergePhase2Step st).1 := by
  induction ws generalizing st with
  | nil => exact h
  | cons x t ih => exact ih (mergePhase2Step st x) (phase2Step_seen_mono st x k h)

theorem foldl_phase2_adds (ws : List OcrWord) (st : List (String × Int) × AssocWords) :
    ∀ w ∈ ws, uniqueKey w ∈ (ws.foldl mergePhase2Step st).1 := by
  induction ws generalizing st with
  | nil => intro w hw; cases hw
  | cons x t ih =>
    intro w hw
    rcases List.mem_cons.mp hw with hw | hw
    · subst hw
      exact foldl_phase2_seen_mono t (mergePhase2Step st w) _ (phase2Step_adds st w)
    · exact ih (mergePhase2Step st x) w hw

theorem phase2_fold_id (ws : List OcrWord) (st : List (String × Int) × AssocWords)
    (h : ∀ w ∈ ws, uniqueKey w ∈ st.1) : ws.foldl mergePhase2Step st = st := by
  induction ws with
  | nil => rfl
  | cons x t ih =>
    have hx : mergePhase2Step st x = st := by
      unfold mergePhase2Step
      rw [if_pos (h x (List.mem_cons_self x t))]
    rw [List.foldl_cons, hx]
    exact ih (fun w hw => h w (List.mem_cons_of_mem x hw))

theorem mergePhase2_twice (ws : List OcrWord) (m0 : AssocWords) :
    mergePhase2 [ws, ws] m0 = mergePhase2 [ws] m0 := by
  unfold mergePhase2
  simp only [List.foldl_cons, List.foldl_nil]
  rw [phase2_fold_id ws _ (foldl_phase2_adds ws ([], m0))]

/-- C8: merging a pass's token output with an identical copy of itself yields
the same merged token set as the single pass alone — the second copy neither
replaces map entries (same confidence is not greater) nor passes the
unique-word screen — and hence the same reconstructed row set. -/
theorem merge_idempotent (ws : List OcrWord) :
    mergeOcrWords [ws, ws] = mergeOcrWords [ws]
    ∧ extractNeededValuesFromWords (mergeOcrWords [ws, ws])
        = extractNeededValuesFromWords (mergeOcrWords [ws]) := by
  have h : mergeOcrWords [ws, ws] = mergeOcrWords [ws] := by
    unfold mergeOcrWords
    rw [mergePhase1_twice, mergePhase2_twice]
  exact ⟨h, congrArg extractNeededValuesFromWords h⟩

/-! ## Fallback column inference lemmas (for C7) -/

theorem addToBuckets_ne_nil (bs : List (Int × Nat × List Rat)) (k : Int) (cx : Rat) :
    addToBuckets bs k cx ≠ [] := by
  cases bs with
  | nil => simp [addToBuckets]
  | cons e rest =>
    unfold addToBuckets
    split <;> simp

theorem foldl_addToBuckets_ne_nil (ws : List OcrWord) (bs : List (Int × Nat × List Rat))
    (h : bs ≠ []) :
    ws.foldl (fun bs w => addToBuckets bs (jsRound (centerX w.bbox / 40) * 40) (centerX w.bbox)) bs
      ≠ [] := by
  induction ws generalizing bs with
  | nil => exact h
  | cons x t ih => exact ih _ (addToBuckets_ne_nil bs _ _)

theorem buildBuckets_ne_nil (mw : List OcrWord) (h : mw ≠ []) : buildBuckets mw ≠ [] := by
  unfold buildBuckets
  cases mw with
  | nil => exact absurd rfl h
  | cons x t =>
    rw [List.foldl_cons]
    exact foldl_addToBuckets_ne_nil t _ (addToBuckets_ne_nil [] _ _)

/-- C7 (amended): with no header candidate and at least two money-shaped
tokens, the extraction takes the fallback path: the value band is the median
center of the densest 40px bucket of money-token centers, ±120px, and the
returned rows are the de-duplicated rows reconstructed from the clustered
lines against that band; with fewer than two money-shaped tokens the result
is empty. -/
theorem fallback_band (words : List OcrWord)
    (hn : ∀ w ∈ words, isLikelyNeededHeader w = false) :
    ((words.filter (fun w => (parseMoneyToPence w.text).isSome)).length < 2 →
      extractNeededValuesFromWords words = ⟨[], [], 0, ⟨none, none, none⟩⟩)
    ∧ (2 ≤ (words.filter (fun w => (parseMoneyToPence w.text).isSome)).length →
      ∃ best med,
      (stableSort (fun a b => decide (b.2.1 ≤ a.2.1))
          (buildBuckets (words.filter (fun w => (parseMoneyToPence w.text).isSome)))).head?
        = some best
      ∧ med = ((stableSort (fun a b => decide (a ≤ b)) best.2.2).get?
          ((stableSort (fun a b => decide (a ≤ b)) best.2.2).length / 2)).getD ((best.1 : Rat))
      ∧ extractNeededValuesFromWords words = fallbackParse words
      ∧ (extractNeededValuesFromWords words).debug.columnX0 = some (med - 120)
      ∧ (extractNeededValuesFromWords words).debug.columnX1 = some (med + 120)
      ∧ (extractNeededValuesFromWords words).rows
          = dedupeRowsAux (parseRowsFromLines
              (clusterByLine (words.filter (fun w => !(jsTrim w.text).isEmpty)) 15)
              (med - 120) (med + 120)) []) := by
  have hcand : words.filter isLikelyNeededHeader = [] := by
    rw [List.filter_eq_nil_iff]
    intro a ha
    simp [hn a ha]
  have hex : extractNeededValuesFromWords words = fallbackParse words := by
    unfold extractNeededValuesFromWords
    dsimp only
    rw [hcand]
    rfl
  constructor
  · intro hlt
    rw [hex]
    unfold fallbackParse
    dsimp only
    rw [if_pos hlt]
  intro hm
  have hmw : ¬((words.filter (fun w => (parseMoneyToPence w.text).isSome)).length < 2) := by
    omega
  have hmwne : words.filter (fun w => (parseMoneyToPence w.text).isSome) ≠ [] := by
    intro hnil
    rw [hnil] at hm
    simp at hm
  have hbne : buildBuckets (words.filter (fun w => (parseMoneyToPence w.text).isSome)) ≠ [] :=
    buildBuckets_ne_nil _ hmwne
  have hsne : stableSort (fun a b => decide (b.2.1 ≤ a.2.1))
      (buildBuckets (words.filter (fun w => (parseMoneyToPence w.text).isSome))) ≠ [] := by
    intro hnil
    have := length_stableSort (fun a b => decide (b.2.1 ≤ a.2.1))
      (buildBuckets (words.filter (fun w => (parseMoneyToPence w.text).isSome)))
    rw [hnil] at this
    exact hbne (List.length_eq_zero.mp this.symm)
  cases hb : (stableSort (fun a b => decide (b.2.1 ≤ a.2.1))
      (buildBuckets (words.filter (fun w => (parseMoneyToPence w.text).isSome)))).head? with
  | none =>
    cases hl : stableSort (fun a b => decide (b.2.1 ≤ a.2.1))
        (buildBuckets (words.filter (fun w => (parseMoneyToPence w.text).isSome))) with
    | nil => exact absurd hl hsne
    | cons x t => rw [hl] at hb; cases hb
  | some best =>
    have hfb0 : (fallbackParse words).debug.columnX0
        = some (((stableSort (fun a b => decide (a ≤ b)) best.2.2).get?
            ((stableSort (fun a b => decide (a ≤ b)) best.2.2).length / 2)).getD ((best.1 : Rat))
          - 120) := by
      unfold fallbackParse
      dsimp only
      rw [if_neg hmw, hb]
    have hfb1 : (fallbackParse words).debug.columnX1
        = some (((stableSort (fun a b => decide (a ≤ b)) best.2.2).get?
            ((stableSort (fun a b => decide (a ≤ b)) best.2.2).length / 2)).getD ((best.1 : Rat))
          + 120) := by
      unfold fallbackParse
      dsimp only
      rw [if_neg hmw, hb]
    have hfbr : (fallbackParse words).rows
        = dedupeRowsAux (parseRowsFromLines
            (clusterByLine (words.filter (fun w => !(jsTrim w.text).isEmpty)) 15)
            ((((stableSort (fun a b => decide (a ≤ b)) best.2.2).get?
              ((stableSort (fun a b => decide (a ≤ b)) best.2.2).length / 2)).getD
                ((best.1 : Rat))) - 120)
            ((((stableSort (fun a b => decide (a ≤ b)) best.2.2).get?
              ((stableSort (fun a b => decide (a ≤ b)) best.2.2).length / 2)).getD
                ((best.1 : Rat))) + 120)) [] := by
      unfold fallbackParse
      dsimp only
      rw [if_neg hmw, hb]
    refine ⟨best, _, rfl, rfl, hex, ?_, ?_, ?_⟩
    · rw [hex, hfb0]
    · rw [hex, hfb1]
    · rw [hex, hfbr]

/-- Counterexample to C7 as stated: a header-less token set containing a
money-shaped token for which the extraction nevertheless returns the empty
result — the fallback clusters only when at least two money-shaped tokens are
present. -/
theorem fallback_single_money_empty :
    isLikelyNeededHeader singleMoneyWord = false
    ∧ (parseMoneyToPence singleMoneyWord.text).isSome = true
    ∧ extractNeededValuesFromWords [singleMoneyWord]
        = ⟨[], [], 0, ⟨none, none, none⟩⟩ := by
  decide

/-- Witness for C7: a header-less three-token sample with two money-shaped
tokens satisfies the hypothesis of the fallback-band theorem. -/
theorem fallback_band_witness :
    (∀ w ∈ fallbackSampleWords, isLikelyNeededHeader w = false)
    ∧ (((fallbackSampleWords.filter (fun w => (parseMoneyToPence w.text).isSome)).length < 2 →
        extractNeededValuesFromWords fallbackSampleWords = ⟨[], [], 0, ⟨none, none, none⟩⟩)
      ∧ (2 ≤ (fallbackSampleWords.filter (fun w => (parseMoneyToPence w.text).isSome)).length →
        ∃ best med,
          (stableSort (fun a b => decide (b.2.1 ≤ a.2.1))
              (buildBuckets (fallbackSampleWords.filter
                (fun w => (parseMoneyToPence w.text).isSome)))).head?
            = some best
          ∧ med = ((stableSort (fun a b => decide (a ≤ b)) best.2.2).get?
              ((stableSort (fun a b => decide (a ≤ b)) best.2.2).length / 2)).getD ((best.1 : Rat))
          ∧ extractNeededValuesFromWords fallbackSampleWords = fallbackParse fallbackSampleWords
          ∧ (extractNeededValuesFromWords fallbackSampleWords).debug.columnX0 = some (med - 120)
          ∧ (extractNeededValuesFromWords fallbackSampleWords).debug.columnX1 = some (med + 120)
          ∧ (extractNeededValuesFromWords fallbackSampleWords).rows
              = dedupeRowsAux (parseRowsFromLines
                  (clusterByLine (fallbackSampleWords.filter
                    (fun w => !(jsTrim w.text).isEmpty)) 15)
                  (med - 120) (med + 120)) [])) :=
  ⟨by decide, fallback_band fallbackSampleWords (by decide)⟩

/-- Witness for C5: with the two tied candidates the selection succeeds and
returns a candidate of maximal confidence. -/
theorem selectHeader_max_confidence_witness :
    ([hdrCandShort, hdrCandLong] : List OcrWord) ≠ []
    ∧ ∃ h, selectHeader [hdrCandShort, hdrCandLong] = some h
      ∧ h ∈ [hdrCandShort, hdrCandLong]
      ∧ ∀ c ∈ [hdrCandShort, hdrCandLong], c.confidence ≤ h.confidence :=
  ⟨by simp, selectHeader_max_confidence [hdrCandShort, hdrCandLong] (by simp)⟩
